import Mathlib

/-!
Shallow embedding of the rusty-tasking work-stealing runtime
(src/deque.rs, src/channel.rs, src/future.rs, src/task.rs, src/scope.rs,
src/stats.rs, src/atomic.rs, src/worker.rs) and proofs about it.

Conventions:
* Rust `u32` values are modelled as `Nat`; where the source uses wrapping
  atomic operations we reduce modulo `2 ^ 32` explicitly, and where the
  source uses plain `+` / `-` on `u32` (checked arithmetic, which panics
  on overflow or underflow when overflow checks are enabled, as in the
  default dev and test profiles) we return `Except Unit Nat`, with
  `Except.error ()` standing for the panic.
* A Rust `panic!` / failed `assert!` / `unwrap` on `None` is modelled as
  `Except.error ()`.
* `VecDeque<T>` is modelled as `List T` with the list head at index 0,
  i.e. at the front of the VecDeque.
-/

namespace RustyTasking

/-! ## Task deque (src/deque.rs)

`Deque<T>` is a newtype over `VecDeque<T>`.  The owner pushes and pops at
the front (`push_front` / `pop_front`); thieves steal at the back
(`pop_back`); `steal_many` is `split_off(len / 2)`, which keeps indices
`[0, len/2)` in `self` and hands indices `[len/2, len)` to the caller. -/

structure Deque (T : Type) where
  toList : List T
deriving DecidableEq, Repr

namespace Deque

/-- `Deque::new` -/
def new (T : Type) : Deque T := ⟨[]⟩

/-- `Deque::is_empty` -/
def isEmpty (d : Deque T) : Bool := d.toList.isEmpty

/-- `Deque::push`: `push_front` -/
def push (d : Deque T) (item : T) : Deque T := ⟨item :: d.toList⟩

/-- `Deque::pop`: `pop_front`; returns the popped element and the
remaining deque (the source mutates `self`). -/
def pop (d : Deque T) : Option (T × Deque T) :=
  match d.toList with
  | [] => none
  | x :: rest => some (x, ⟨rest⟩)

/-- `Steal::steal` for `Deque`: `pop_back`. -/
def steal (d : Deque T) : Option (T × Deque T) :=
  match d.toList.getLast? with
  | none => none
  | some x => some (x, ⟨d.toList.dropLast⟩)

/-- `StealMany::steal_many` for `Deque`: if the deque is empty return
`None`; otherwise `split_off(len / 2)`.  Returns the remaining deque
(the mutated `self`, holding indices `[0, len/2)`) paired with the loot
(indices `[len/2, len)`). -/
def stealMany (d : Deque T) : Option (Deque T × Deque T) :=
  let len := d.toList.length
  if len = 0 then none
  else some (⟨d.toList.take (len / 2)⟩, ⟨d.toList.drop (len / 2)⟩)

/-- Push a whole list of items in order (repeated `Deque::push`). -/
def pushAll (d : Deque T) (xs : List T) : Deque T :=
  xs.foldl (fun d x => d.push x) d

lemma pop_some {d : Deque T} {x : T} {d2 : Deque T}
    (h : d.pop = some (x, d2)) : d.toList = x :: d2.toList := by
  obtain ⟨l⟩ := d
  cases l with
  | nil => simp [Deque.pop] at h
  | cons y rest =>
      simp [Deque.pop] at h
      obtain ⟨h1, h2⟩ := h
      subst h1
      rw [← h2]

lemma steal_some {d : Deque T} {x : T} {d2 : Deque T}
    (h : d.steal = some (x, d2)) :
    d.toList.getLast? = some x ∧ d2.toList = d.toList.dropLast := by
  unfold Deque.steal at h
  cases hl : d.toList.getLast? with
  | none => rw [hl] at h; simp at h
  | some y =>
      rw [hl] at h
      simp at h
      obtain ⟨h1, h2⟩ := h
      subst h1
      exact ⟨rfl, by rw [← h2]⟩

/-- Fuelled iteration of `pop` (the fuel only bounds the recursion; with
fuel at least the deque length it drains the whole deque). -/
def drainPopAux : Nat → Deque T → List T
  | 0, _ => []
  | fuel + 1, d =>
      match d.pop with
      | none => []
      | some (x, d2) => x :: drainPopAux fuel d2

/-- Repeatedly `pop` until the deque is empty, collecting the results. -/
def drainPop (d : Deque T) : List T := drainPopAux d.toList.length d

/-- Fuelled iteration of `steal`. -/
def drainStealAux : Nat → Deque T → List T
  | 0, _ => []
  | fuel + 1, d =>
      match d.steal with
      | none => []
      | some (x, d2) => x :: drainStealAux fuel d2

/-- Repeatedly `steal` until the deque is empty, collecting the results. -/
def drainSteal (d : Deque T) : List T := drainStealAux d.toList.length d

end Deque

section DequeLemmas

variable {T : Type}

lemma Deque.pushAll_toList (xs : List T) (d : Deque T) :
    (Deque.pushAll d xs).toList = xs.reverse ++ d.toList := by
  induction xs generalizing d with
  | nil => simp [Deque.pushAll]
  | cons x xs ih =>
      have : Deque.pushAll d (x :: xs) = Deque.pushAll (d.push x) xs := rfl
      rw [this, ih]
      simp [Deque.push]

lemma Deque.drainPopAux_eq (l : List T) (fuel : Nat) (h : l.length ≤ fuel) :
    Deque.drainPopAux fuel (Deque.mk l) = l := by
  induction l generalizing fuel with
  | nil =>
      cases fuel with
      | zero => rfl
      | succ f => rfl
  | cons x xs ih =>
      cases fuel with
      | zero => simp at h
      | succ f =>
          have hpop : (Deque.mk (x :: xs)).pop = some (x, Deque.mk xs) := rfl
          simp only [Deque.drainPopAux, hpop]
          rw [ih f (by simp at h; omega)]

lemma Deque.drainPop_eq (d : Deque T) : d.drainPop = d.toList := by
  obtain ⟨l⟩ := d
  exact Deque.drainPopAux_eq l l.length le_rfl

lemma Deque.drainStealAux_eq (fuel : Nat) (l : List T) (h : l.length ≤ fuel) :
    Deque.drainStealAux fuel (Deque.mk l) = l.reverse := by
  induction fuel generalizing l with
  | zero =>
      have : l = [] := List.length_eq_zero.mp (Nat.le_zero.mp h)
      subst this
      rfl
  | succ f ih =>
      cases hl : l.getLast? with
      | none =>
          have : l = [] := by
            cases l with
            | nil => rfl
            | cons y ys => simp [List.getLast?_eq_getLast] at hl
          subst this
          rfl
      | some x =>
          have hne : l ≠ [] := by
            intro hnil; subst hnil; simp at hl
          have hsteal : (Deque.mk l).steal = some (x, Deque.mk l.dropLast) := by
            unfold Deque.steal
            simp only [hl]
          simp only [Deque.drainStealAux, hsteal]
          have hpos := List.length_pos.mpr hne
          have hdrop : l.dropLast.length ≤ f := by
            rw [List.length_dropLast]; omega
          rw [ih l.dropLast hdrop]
          have h2 := List.getLast?_eq_getLast l hne
          rw [h2] at hl
          have hx : l.getLast hne = x := by
            simpa using hl
          have hrev : l.reverse = x :: l.dropLast.reverse := by
            conv_lhs => rw [← List.dropLast_concat_getLast hne]
            rw [List.reverse_append, hx]
            simp
          rw [hrev]

lemma Deque.drainSteal_eq (d : Deque T) : d.drainSteal = d.toList.reverse := by
  obtain ⟨l⟩ := d
  exact Deque.drainStealAux_eq l.length l le_rfl

end DequeLemmas

/-! Claims C2 and C6 -/

/-- C6: for every sequence of values pushed onto a deque, repeated `pop`
returns them in reverse push order (LIFO) and repeated `steal` returns
them in push order (FIFO); both `pop` and `steal` return nothing on an
empty deque. -/
theorem c6_deque_pop_lifo_steal_fifo (T : Type) (xs : List T) :
    (Deque.pushAll (Deque.new T) xs).drainPop = xs.reverse ∧
    (Deque.pushAll (Deque.new T) xs).drainSteal = xs ∧
    (Deque.new T).pop = none ∧ (Deque.new T).steal = none := by
  refine ⟨?_, ?_, rfl, rfl⟩
  · rw [Deque.drainPop_eq, Deque.pushAll_toList]
    simp [Deque.new]
  · rw [Deque.drainSteal_eq, Deque.pushAll_toList]
    simp [Deque.new]

/-- C2: for a deque of length `L ≥ 1`, `steal_many` splits at `L / 2`:
the loot is the higher-indexed `⌈L/2⌉` elements in their existing order,
the owner keeps the lower-indexed `⌊L/2⌋` elements, `|remaining| ≤ |loot|`
and `|remaining| + |loot| = L`; on an empty deque it returns nothing. -/
theorem c2_steal_many_split (T : Type) (d : Deque T)
    (h : 1 ≤ d.toList.length) :
    (∃ rem loot : Deque T,
      d.stealMany = some (rem, loot) ∧
      rem.toList ++ loot.toList = d.toList ∧
      loot.toList.length = (d.toList.length + 1) / 2 ∧
      rem.toList.length = d.toList.length / 2 ∧
      rem.toList.length ≤ loot.toList.length ∧
      rem.toList.length + loot.toList.length = d.toList.length) ∧
    (Deque.new T).stealMany = none := by
  constructor
  · refine ⟨⟨d.toList.take (d.toList.length / 2)⟩,
      ⟨d.toList.drop (d.toList.length / 2)⟩, ?_, ?_, ?_, ?_, ?_, ?_⟩
    · unfold Deque.stealMany
      simp only []
      rw [if_neg (by omega)]
    · exact List.take_append_drop _ _
    · simp [List.length_drop]; omega
    · simp [List.length_take]; omega
    · simp [List.length_take, List.length_drop]; omega
    · simp [List.length_take, List.length_drop]; omega
  · rfl

/-- Witness for C2 at the concrete deque `[1, 2, 3]`. -/
theorem c2_steal_many_split_witness :
    1 ≤ (Deque.mk [1, 2, 3] : Deque Nat).toList.length ∧
    ((∃ rem loot : Deque Nat,
      (Deque.mk [1, 2, 3]).stealMany = some (rem, loot) ∧
      rem.toList ++ loot.toList = (Deque.mk [1, 2, 3] : Deque Nat).toList ∧
      loot.toList.length = ((Deque.mk [1, 2, 3] : Deque Nat).toList.length + 1) / 2 ∧
      rem.toList.length = (Deque.mk [1, 2, 3] : Deque Nat).toList.length / 2 ∧
      rem.toList.length ≤ loot.toList.length ∧
      rem.toList.length + loot.toList.length = (Deque.mk [1, 2, 3] : Deque Nat).toList.length) ∧
    (Deque.new Nat).stealMany = none) :=
  ⟨by decide, c2_steal_many_split Nat (Deque.mk [1, 2, 3]) (by decide)⟩

/-! ## One-shot channel (src/channel.rs)

The shared cell holds a value slot (`UnsafeCell<MaybeUninit<T>>`, modelled
as `Option T`; `none` = uninitialized) and a ready flag (`AtomicBool`).
`send` writes the slot and then stores `true` into the flag; `receive`
swaps the flag to `false` and panics if it was already `false`, else reads
the slot (`assume_init_read` copies the value out and leaves the slot
bits in place, so the model keeps the slot unchanged). -/

structure OneShot (T : Type) where
  message : Option T
  ready : Bool
deriving DecidableEq, Repr

namespace OneShot

/-- `one_shot_channel()`: fresh shared cell, uninitialized slot, flag
`false`.  (The sender/receiver pair both alias this one cell.) -/
def oneShotChannel (T : Type) : OneShot T := ⟨none, false⟩

/-- `Sender::send`: write the message, then publish the ready flag. -/
def send (c : OneShot T) (message : T) : OneShot T :=
  { c with message := some message, ready := true }

/-- `Receiver::is_ready`: load the ready flag. -/
def isReady (c : OneShot T) : Bool := c.ready

/-- `Receiver::receive`: swap the ready flag to `false`; if it was
`false`, panic; else read the value out of the slot (reading an
initialized slot always succeeds; the `none` branch is unreachable after
a `send`, and reading uninitialized memory is a hard error). -/
def receive (c : OneShot T) : Except Unit (T × OneShot T) :=
  if c.ready then
    match c.message with
    | some v => Except.ok (v, { c with ready := false })
    | none => Except.error ()
  else
    Except.error ()

end OneShot

/-- C5: on a fresh one-shot channel, `send(x)` followed by `receive()`
returns `x` and leaves the channel not-ready (`is_ready()` returns
`false` afterwards). -/
theorem c5_one_shot_round_trip (T : Type) (x : T) :
    ((OneShot.oneShotChannel T).send x).receive =
      Except.ok (x, OneShot.mk (some x) false) ∧
    OneShot.isReady (OneShot.mk (some x) false) = false := by
  exact ⟨rfl, rfl⟩

/-! ## Lazy futures and promises (src/future.rs)

`LazyFuture<T>` is `Lazy(Option<T>) | Chan(Future<T>)` where `Future<T>`
wraps an `mpsc::Receiver<T>`; `LazyPromise<T>` is a raw back-pointer to
the paired `LazyFuture` (`Lazy`) or an mpsc `Sender` (`Chan`).  Because
the lazy promise aliases the future's storage and, after promotion, the
sender and receiver share one queue, we model the *pair* as one world:
the future's storage (with the mpsc channel buffer inlined into the
`chan` case) plus the promise's variant tag. -/

/-- Storage of a `LazyFuture<T>`: the `Lazy` case holds the in-place
optional slot; the `Chan` case holds the buffered messages of the
underlying `std::sync::mpsc` channel (an unbounded queue; `Future::get`
receives from its front). -/
inductive FutStore (T : Type) where
  | lazy (opt : Option T)
  | chan (queue : List T)
deriving DecidableEq, Repr

/-- Variant tag of the paired `LazyPromise<T>`. -/
inductive PromKind where
  | lazy
  | chan
deriving DecidableEq, Repr

/-- The combined state of a `LazyFuture` and the `LazyPromise` backed by
it (`LazyPromise::new(&mut future)`). -/
structure FutProm (T : Type) where
  fut : FutStore T
  prom : PromKind
deriving DecidableEq, Repr

namespace FutProm

/-- `LazyFuture::new()` followed by `LazyPromise::new(&mut future)`:
an empty lazy slot and a lazy back-pointer. -/
def new (T : Type) : FutProm T := ⟨FutStore.lazy none, PromKind.lazy⟩

/-- `LazyPromise::promote`: create a fresh one-shot mpsc pair; on the
`Lazy` variant overwrite the paired future with the channel receiver and
replace the promise with the channel sender; on the `Chan` variant panic
("Something went wrong"). -/
def promote (w : FutProm T) : Except Unit (FutProm T) :=
  match w.prom with
  | PromKind.lazy => Except.ok ⟨FutStore.chan [], PromKind.chan⟩
  | PromKind.chan => Except.error ()

/-- `LazyPromise::set`: on the `Lazy` variant write into the referenced
slot (asserting it is empty, and panicking if the storage was already
converted to a channel); on the `Chan` variant send on the mpsc sender
(appending to the queue; the paired storage is the channel by the
promote protocol, any other pairing is an unreachable/failed state). -/
def set (w : FutProm T) (value : T) : Except Unit (FutProm T) :=
  match w.prom with
  | PromKind.lazy =>
      match w.fut with
      | FutStore.lazy none => Except.ok ⟨FutStore.lazy (some value), PromKind.lazy⟩
      | FutStore.lazy (some _) => Except.error ()
      | FutStore.chan _ => Except.error ()
  | PromKind.chan =>
      match w.fut with
      | FutStore.chan q => Except.ok ⟨FutStore.chan (q ++ [value]), PromKind.chan⟩
      | FutStore.lazy _ => Except.error ()

/-- `LazyFuture::get`: on `Lazy` unwrap the slot (`none`: panic,
modelled as no value); on `Chan` receive from the channel (`recv`,
which blocks or fails when no message will arrive: no value). -/
def get (w : FutProm T) : Option T :=
  match w.fut with
  | FutStore.lazy opt => opt
  | FutStore.chan q => q.head?

end FutProm

/-! Claims C1 and C4 -/

/-- C1 counterexample: for a promise already promoted to a channel
promise, `promote()` is not a no-op — it panics (`LazyPromise::Chan(_) =>
panic!()` in `LazyPromise::promote`), rather than returning with the
state unchanged. -/
theorem c1_promote_counterexample :
    FutProm.promote (FutProm.mk (FutStore.chan []) PromKind.chan : FutProm Nat) =
      Except.error () ∧
    FutProm.promote (FutProm.mk (FutStore.chan []) PromKind.chan : FutProm Nat) ≠
      Except.ok (FutProm.mk (FutStore.chan []) PromKind.chan) := by
  exact ⟨rfl, by intro hc; simp [FutProm.promote] at hc⟩

/-- C1 amended: calling `promote()` on a promise that is already a
channel promise panics (aborts), for every such state; `promote`
succeeds only on a lazy promise. -/
theorem c1_promote_again_panics (T : Type) (w : FutProm T)
    (h : w.prom = PromKind.chan) :
    FutProm.promote w = Except.error () := by
  unfold FutProm.promote
  rw [h]

/-- Witness for the amended C1 at a concrete already-promoted state. -/
theorem c1_promote_again_panics_witness :
    (FutProm.mk (FutStore.chan ([3] : List Nat)) PromKind.chan).prom = PromKind.chan ∧
    FutProm.promote (FutProm.mk (FutStore.chan ([3] : List Nat)) PromKind.chan) =
      Except.error () :=
  ⟨rfl, c1_promote_again_panics Nat _ rfl⟩

/-- C4: for every value `v`, creating a lazy future with its promise,
promoting the promise, then setting `v`, makes `get` return `v`; and
without promotion, setting `v` directly also makes `get` return `v`. -/
theorem c4_lazy_round_trip (T : Type) (v : T) :
    (FutProm.promote (FutProm.new T) =
      Except.ok (FutProm.mk (FutStore.chan []) PromKind.chan)) ∧
    (FutProm.set (FutProm.mk (FutStore.chan []) PromKind.chan) v =
      Except.ok (FutProm.mk (FutStore.chan [v]) PromKind.chan)) ∧
    FutProm.get (FutProm.mk (FutStore.chan [v]) PromKind.chan) = some v ∧
    (FutProm.set (FutProm.new T) v =
      Except.ok (FutProm.mk (FutStore.lazy (some v)) PromKind.lazy)) ∧
    FutProm.get (FutProm.mk (FutStore.lazy (some v)) PromKind.lazy) = some v := by
  exact ⟨rfl, rfl, rfl, rfl, rfl⟩

/-! ## Counters (src/atomic.rs and src/stats.rs)

`atomic::Count` wraps an `AtomicU32`; `fetch_add` / `fetch_sub` always
wrap around on overflow (guaranteed by the atomic operations, in every
build profile) and return the previous value.

`stats::Count` wraps a `Cell<u32>` and implements `add` / `sub` with the
plain `+` / `-` operators on `u32`.  Those are checked operations: with
overflow checks enabled (the default for the dev and test profiles the
crate's own tests build under) they panic on overflow or underflow; we
model that panic as `Except.error ()`.  (Only with overflow checks
disabled, e.g. a default release build, do they wrap.) -/

/-- `2 ^ 32`, the modulus of `u32` arithmetic. -/
def u32Mod : Nat := 4294967296

namespace atomic

/-- `atomic::Count::add`: `fetch_add`, returning (previous, new cell value);
the new value wraps modulo `2 ^ 32`. -/
def add (c v : Nat) : Nat × Nat := (c, (c + v) % u32Mod)

/-- `atomic::Count::sub`: `fetch_sub`, returning (previous, new cell value);
the new value wraps modulo `2 ^ 32`. -/
def sub (c v : Nat) : Nat × Nat := (c, (c + (u32Mod - v % u32Mod)) % u32Mod)

/-- `atomic::Count::inc` = `add 1`. -/
def inc (c : Nat) : Nat × Nat := add c 1

/-- `atomic::Count::dec` = `sub 1`. -/
def dec (c : Nat) : Nat × Nat := sub c 1

end atomic

namespace stats

/-- `stats::Count::add`: `set(get() + value)` with checked `u32`
addition (panic on overflow under enabled overflow checks). -/
def add (c v : Nat) : Except Unit Nat :=
  if c + v < u32Mod then Except.ok (c + v) else Except.error ()

/-- `stats::Count::sub`: `set(get() - value)` with checked `u32`
subtraction (panic on underflow under enabled overflow checks). -/
def sub (c v : Nat) : Except Unit Nat :=
  if v ≤ c then Except.ok (c - v) else Except.error ()

/-- `stats::Count::inc` = `add 1`. -/
def inc (c : Nat) : Except Unit Nat := add c 1

/-- `stats::Count::dec` = `sub 1`. -/
def dec (c : Nat) : Except Unit Nat := sub c 1

end stats

/-! Claim C9 -/

/-- C9 counterexample: the claim says both counter types wrap, and in
particular that `dec` on a counter holding 0 yields `2^32 - 1`.  For the
private `stats::Count`, `dec` on 0 is a checked `u32` underflow — it
panics (under the overflow checks the crate's own tests build with)
instead of yielding `2^32 - 1`. -/
theorem c9_stats_dec_counterexample :
    stats.dec 0 = Except.error () ∧ stats.dec 0 ≠ Except.ok (u32Mod - 1) := by
  constructor
  · rfl
  · intro hc
    simp [stats.dec, stats.sub, u32Mod] at hc

/-- C9 amended: the shared `atomic::Count` wraps modulo `2^32` on
overflow and underflow — `dec` at 0 yields `2^32 - 1` and a following
`inc` restores 0, and `sub` then re-adding the subtrahend restores the
original value modulo `2^32` — while the private `stats::Count` uses
checked `u32` arithmetic that fails on overflow or underflow instead of
wrapping: `dec` at 0 and any `add` reaching `2^32` panic, and `add` /
`sub` succeed exactly within the `u32` range. -/
theorem c9_counter_overflow (c v : Nat) (hc : c < u32Mod) (hv : v < u32Mod) :
    (atomic.dec 0).2 = u32Mod - 1 ∧
    (atomic.inc (u32Mod - 1)).2 = 0 ∧
    ((atomic.sub c v).2 + v) % u32Mod = c ∧
    ((atomic.add c v).2 + (u32Mod - v)) % u32Mod = c ∧
    stats.dec 0 = Except.error () ∧
    (∀ w, stats.add c w = Except.ok (c + w) ↔ c + w < u32Mod) ∧
    (∀ w, stats.sub c w = Except.ok (c - w) ↔ w ≤ c) := by
  refine ⟨rfl, rfl, ?_, ?_, rfl, ?_, ?_⟩
  · simp only [atomic.sub, u32Mod] at *
    omega
  · simp only [atomic.add, u32Mod] at *
    omega
  · intro w
    constructor
    · intro h
      by_contra hlt
      simp [stats.add, if_neg hlt] at h
    · intro h
      simp [stats.add, if_pos h]
  · intro w
    constructor
    · intro h
      by_contra hle
      simp [stats.sub, if_neg hle] at h
    · intro h
      simp [stats.sub, if_pos h]

/-- Witness for the amended C9 at `c = 0`, `v = 5`. -/
theorem c9_counter_overflow_witness :
    (0 < u32Mod ∧ 5 < u32Mod) ∧
    ((atomic.dec 0).2 = u32Mod - 1 ∧
    (atomic.inc (u32Mod - 1)).2 = 0 ∧
    ((atomic.sub 0 5).2 + 5) % u32Mod = 0 ∧
    ((atomic.add 0 5).2 + (u32Mod - 5)) % u32Mod = 0 ∧
    stats.dec 0 = Except.error () ∧
    (∀ w, stats.add 0 w = Except.ok (0 + w) ↔ 0 + w < u32Mod) ∧
    (∀ w, stats.sub 0 w = Except.ok (0 - w) ↔ w ≤ 0)) :=
  ⟨⟨by decide, by decide⟩, c9_counter_overflow 0 5 (by decide) (by decide)⟩

/-! ## Scope (src/scope.rs) and scoped tasks (src/task.rs)

The thread-local `SCOPE` is a stack (`LinkedList`, front = current) of
frames, each with a `level` and a `num_tasks` counter.  The counter is
`TaskCount::Private(stats::Count)` until `share()` upgrades it to
`TaskCount::Shared(Arc<atomic::Count>)`.  We model the `Arc`-shared
atomic cells as a heap (`List Nat`) indexed by allocation order, and a
scope state as the frame stack plus that heap. -/

/-- `TaskCount`: a private (non-atomic) count or a handle to a shared
atomic cell, identified by its index into the heap of shared cells. -/
inductive TaskCount where
  | priv (n : Nat)
  | shared (idx : Nat)
deriving DecidableEq, Repr

/-- A `Scope` frame: its level and its `num_tasks` counter. -/
structure Frame where
  level : Nat
  numTasks : TaskCount
deriving DecidableEq, Repr

/-- The thread-local scope stack (head = current frame, as with
`LinkedList::push_front`) together with the heap of shared atomic
counter cells. -/
structure ScopeState where
  frames : List Frame
  heap : List Nat
deriving DecidableEq, Repr

/-- Read a shared cell (`atomic::Count::get`). -/
def heapGet (heap : List Nat) (idx : Nat) : Nat := heap.getD idx 0

namespace TaskCount

/-- `TaskCount::get`. -/
def get (c : TaskCount) (heap : List Nat) : Nat :=
  match c with
  | priv n => n
  | shared idx => heapGet heap idx

/-- `TaskCount::inc`: on a private count, `stats::Count::inc` (checked);
on a shared count, `atomic::Count::inc` (wrapping).  Returns the
previous value, the updated counter and the updated heap. -/
def inc (c : TaskCount) (heap : List Nat) :
    Except Unit (Nat × TaskCount × List Nat) :=
  match c with
  | priv n =>
      match stats.inc n with
      | Except.ok m => Except.ok (n, priv m, heap)
      | Except.error e => Except.error e
  | shared idx =>
      let v := heapGet heap idx
      Except.ok (v, shared idx, heap.set idx (atomic.inc v).2)

/-- `TaskCount::dec`: on a private count, `stats::Count::dec` (checked);
on a shared count, `atomic::Count::dec` (wrapping). -/
def dec (c : TaskCount) (heap : List Nat) :
    Except Unit (Nat × TaskCount × List Nat) :=
  match c with
  | priv n =>
      match stats.dec n with
      | Except.ok m => Except.ok (n, priv m, heap)
      | Except.error e => Except.error e
  | shared idx =>
      let v := heapGet heap idx
      Except.ok (v, shared idx, heap.set idx (atomic.dec v).2)

end TaskCount

namespace Scope

/-- The value of the current frame's counter (`Scope::current()` followed
by `num_tasks.get()`); `none` when the scope stack is empty, in which
case `Scope::current()` dereferences a null pointer. -/
def counterValue (s : ScopeState) : Option Nat :=
  match s.frames with
  | [] => none
  | f :: _ => some (f.numTasks.get s.heap)

/-- Well-formedness of the current frame: a shared counter handle points
into the heap of live shared cells (an `Arc` always does). -/
def frameOk (s : ScopeState) : Bool :=
  match s.frames with
  | [] => false
  | f :: _ =>
      match f.numTasks with
      | TaskCount.priv _ => true
      | TaskCount.shared idx => idx < s.heap.length

/-- `Scope::share`: if the current frame's counter is already shared,
return a clone of the existing handle; otherwise allocate a fresh shared
atomic cell holding the current private value, install the shared
handle in the frame, and return it.  Panics (null dereference in
`Scope::current`) when the scope stack is empty. -/
def share (s : ScopeState) : Except Unit (Nat × ScopeState) :=
  match s.frames with
  | [] => Except.error ()
  | f :: rest =>
      match f.numTasks with
      | TaskCount.shared idx => Except.ok (idx, s)
      | TaskCount.priv n =>
          let idx := s.heap.length
          Except.ok (idx,
            ⟨{ f with numTasks := TaskCount.shared idx } :: rest,
              s.heap ++ [n]⟩)

end Scope

/-- A `ScopedAsync` task, reduced to the part the scope claims concern:
the optional shared scope-counter handle captured during `promote`
(`num_tasks_in_scope`).  The boxed thunk and the optional result promise
are abstracted: `run` takes the thunk's effect on the scope state as an
explicit `body` argument, and the promise protocol is covered by the
`FutProm` model above. -/
structure ScopedAsync where
  numTasksInScope : Option Nat
deriving DecidableEq, Repr

namespace ScopedAsync

/-- `ScopedAsync::new`: `Scope::current().num_tasks.inc()` (panicking on
an empty scope stack or a private-counter overflow), then build the task
with `num_tasks_in_scope = None`. -/
def new (s : ScopeState) : Except Unit (ScopedAsync × ScopeState) :=
  match s.frames with
  | [] => Except.error ()
  | f :: rest =>
      match f.numTasks.inc s.heap with
      | Except.ok (_, c2, heap2) =>
          Except.ok (⟨none⟩, ⟨{ f with numTasks := c2 } :: rest, heap2⟩)
      | Except.error e => Except.error e

/-- `ScopedAsync::promote`: promote the embedded promise (covered by the
`FutProm` model), assert that no scope-counter handle was captured yet,
then capture `Scope::current().share()`. -/
def promote (t : ScopedAsync) (s : ScopeState) :
    Except Unit (ScopedAsync × ScopeState) :=
  match t.numTasksInScope with
  | some _ => Except.error ()
  | none =>
      match Scope.share s with
      | Except.ok (idx, s2) => Except.ok (⟨some idx⟩, s2)
      | Except.error e => Except.error e

/-- `ScopedAsync::run`: if a scope-counter handle was captured during
promote, push a new scope frame (level = current level + 1) whose
counter is that shared handle; execute the body; set the promise if
present (covered by the `FutProm` model); finally decrement the
then-current scope's counter. -/
def run (body : ScopeState → ScopeState) (t : ScopedAsync) (s : ScopeState) :
    Except Unit ScopeState :=
  let step1 : Except Unit ScopeState :=
    match t.numTasksInScope with
    | some idx =>
        match s.frames with
        | [] => Except.error ()
        | f :: _ =>
            Except.ok ⟨⟨f.level + 1, TaskCount.shared idx⟩ :: s.frames, s.heap⟩
    | none => Except.ok s
  match step1 with
  | Except.error e => Except.error e
  | Except.ok s1 =>
      let s2 := body s1
      match s2.frames with
      | [] => Except.error ()
      | f :: rest =>
          match f.numTasks.dec s2.heap with
          | Except.ok (_, c2, heap2) =>
              Except.ok ⟨{ f with numTasks := c2 } :: rest, heap2⟩
          | Except.error e => Except.error e

end ScopedAsync

section HeapLemmas

lemma heapGet_set_self (heap : List Nat) (idx v : Nat) (h : idx < heap.length) :
    heapGet (heap.set idx v) idx = v := by
  induction heap generalizing idx with
  | nil => simp at h
  | cons a l ih =>
      cases idx with
      | zero => rfl
      | succ i =>
          have hi : i < l.length := by simpa using h
          simpa [heapGet] using ih i hi

lemma heapGet_append_self (heap : List Nat) (v : Nat) :
    heapGet (heap ++ [v]) heap.length = v := by
  induction heap with
  | nil => rfl
  | cons a l ih => simpa using ih

end HeapLemmas

/-! Claims C8 and C7 -/

/-- C8: `Scope::share()` converts a private frame counter to a shared
atomic counter preserving its current value, and is idempotent: a
subsequent `share()` returns the same shared handle and leaves the
counter's value unchanged (indeed the whole state unchanged). -/
theorem c8_share_preserves_and_idempotent (s s2 : ScopeState) (idx : Nat)
    (h : Scope.share s = Except.ok (idx, s2)) :
    Scope.counterValue s2 = Scope.counterValue s ∧
    Scope.share s2 = Except.ok (idx, s2) := by
  obtain ⟨frames, heap⟩ := s
  cases frames with
  | nil => simp [Scope.share] at h
  | cons f rest =>
      cases hc : f.numTasks with
      | shared j =>
          simp [Scope.share, hc] at h
          obtain ⟨h1, h2⟩ := h
          subst h1
          rw [← h2]
          exact ⟨rfl, by simp [Scope.share, hc]⟩
      | priv n =>
          simp [Scope.share, hc] at h
          obtain ⟨h1, h2⟩ := h
          subst h1
          rw [← h2]
          refine ⟨?_, by simp [Scope.share]⟩
          simp [Scope.counterValue, TaskCount.get, hc]
          exact heapGet_append_self heap n

/-- Witness for C8: sharing a private counter holding 5. -/
theorem c8_share_preserves_and_idempotent_witness :
    Scope.share (ScopeState.mk [Frame.mk 0 (TaskCount.priv 5)] []) =
      Except.ok (0, ScopeState.mk [Frame.mk 0 (TaskCount.shared 0)] [5]) ∧
    (Scope.counterValue (ScopeState.mk [Frame.mk 0 (TaskCount.shared 0)] [5]) =
      Scope.counterValue (ScopeState.mk [Frame.mk 0 (TaskCount.priv 5)] []) ∧
    Scope.share (ScopeState.mk [Frame.mk 0 (TaskCount.shared 0)] [5]) =
      Except.ok (0, ScopeState.mk [Frame.mk 0 (TaskCount.shared 0)] [5])) :=
  ⟨rfl, c8_share_preserves_and_idempotent _ _ 0 rfl⟩

/-- C7: constructing a scoped task increments the current scope's
counter by one; running it decrements the then-current counter by one
after the body; when a shared handle was captured during promote, run
first pushes a new scope frame (level + 1) carrying that shared counter
and the decrement hits the same shared cell, so in both the plain and
the promoted path the counter returns to its prior value. -/
theorem c7_scoped_task_counter (s : ScopeState) (f : Frame) (rest : List Frame)
    (n : Nat) (hs : s.frames = f :: rest) (hok : Scope.frameOk s = true)
    (hn : f.numTasks.get s.heap = n) (hlt : n + 1 < u32Mod) :
    ∃ t s2, ScopedAsync.new s = Except.ok (t, s2) ∧
      t.numTasksInScope = none ∧
      Scope.counterValue s2 = some (n + 1) ∧
      (∃ s3, ScopedAsync.run id t s2 = Except.ok s3 ∧
        Scope.counterValue s3 = some n) ∧
      (∃ idx t2 s2b, ScopedAsync.promote t s2 = Except.ok (t2, s2b) ∧
        t2.numTasksInScope = some idx ∧
        Scope.counterValue s2b = some (n + 1) ∧
        ∃ s4 g grest, ScopedAsync.run id t2 s2b = Except.ok s4 ∧
          s4.frames = g :: grest ∧ g.level = f.level + 1 ∧
          g.numTasks = TaskCount.shared idx ∧
          heapGet s4.heap idx = n) := by
  obtain ⟨frames, heap⟩ := s
  simp only [] at hs
  subst hs
  have hmod1 : (n + 1) % u32Mod = n + 1 := Nat.mod_eq_of_lt hlt
  have hmod2 : (n + 1 + (u32Mod - 1 % u32Mod)) % u32Mod = n := by
    simp only [u32Mod] at *
    omega
  cases hc : f.numTasks with
  | priv m =>
      have hm : n = m := by simpa [TaskCount.get, hc] using hn.symm
      subst hm
      refine ⟨⟨none⟩, ⟨{ f with numTasks := TaskCount.priv (n + 1) } :: rest, heap⟩,
        ?_, rfl, ?_, ?_, ?_⟩
      · simp [ScopedAsync.new, hc, TaskCount.inc, stats.inc, stats.add, if_pos hlt]
      · simp [Scope.counterValue, TaskCount.get]
      · refine ⟨⟨{ f with numTasks := TaskCount.priv n } :: rest, heap⟩, ?_, ?_⟩
        · simp [ScopedAsync.run, TaskCount.dec, stats.dec, stats.sub]
        · simp [Scope.counterValue, TaskCount.get]
      · refine ⟨heap.length, ⟨some heap.length⟩,
          ⟨{ f with numTasks := TaskCount.shared heap.length } :: rest,
            heap ++ [n + 1]⟩, ?_, rfl, ?_, ?_⟩
        · simp [ScopedAsync.promote, Scope.share]
        · simp [Scope.counterValue, TaskCount.get]
          exact heapGet_append_self heap (n + 1)
        · refine ⟨⟨⟨f.level + 1, TaskCount.shared heap.length⟩ ::
            { f with numTasks := TaskCount.shared heap.length } :: rest,
              (heap ++ [n + 1]).set heap.length n⟩,
            ⟨f.level + 1, TaskCount.shared heap.length⟩, _, ?_, rfl, rfl, rfl, ?_⟩
          · simp [ScopedAsync.run, TaskCount.dec, heapGet_append_self, hmod2,
              atomic.dec, atomic.sub]
          · exact heapGet_set_self _ _ _ (by simp)
  | shared j =>
      have hj : j < heap.length := by simpa [Scope.frameOk, hc] using hok
      have hjn : heapGet heap j = n := by simpa [TaskCount.get, hc] using hn
      have hlen : (heap.set j (n + 1)).length = heap.length := by simp
      refine ⟨⟨none⟩, ⟨{ f with numTasks := TaskCount.shared j } :: rest,
        heap.set j (n + 1)⟩, ?_, rfl, ?_, ?_, ?_⟩
      · simp [ScopedAsync.new, hc, TaskCount.inc, atomic.inc, atomic.add, hjn, hmod1]
      · simp [Scope.counterValue, TaskCount.get]
        exact heapGet_set_self heap j (n + 1) hj
      · refine ⟨⟨{ f with numTasks := TaskCount.shared j } :: rest,
          (heap.set j (n + 1)).set j n⟩, ?_, ?_⟩
        · simp [ScopedAsync.run, TaskCount.dec, atomic.dec, atomic.sub,
            heapGet_set_self heap j (n + 1) hj, hmod2]
        · simp [Scope.counterValue, TaskCount.get]
          exact heapGet_set_self _ j n (by simpa using hj)
      · refine ⟨j, ⟨some j⟩, ⟨{ f with numTasks := TaskCount.shared j } :: rest,
          heap.set j (n + 1)⟩, ?_, rfl, ?_, ?_⟩
        · simp [ScopedAsync.promote, Scope.share]
        · simp [Scope.counterValue, TaskCount.get]
          exact heapGet_set_self heap j (n + 1) hj
        · refine ⟨⟨⟨f.level + 1, TaskCount.shared j⟩ ::
            { f with numTasks := TaskCount.shared j } :: rest,
              (heap.set j (n + 1)).set j n⟩,
            ⟨f.level + 1, TaskCount.shared j⟩, _, ?_, rfl, rfl, rfl, ?_⟩
          · simp [ScopedAsync.run, TaskCount.dec, atomic.dec, atomic.sub,
              heapGet_set_self heap j (n + 1) hj, hmod2]
          · exact heapGet_set_self _ j n (by simpa using hj)

/-- Witness for C7: a single frame with a private counter holding 2. -/
theorem c7_scoped_task_counter_witness :
    ((ScopeState.mk [Frame.mk 0 (TaskCount.priv 2)] []).frames =
        Frame.mk 0 (TaskCount.priv 2) :: [] ∧
      Scope.frameOk (ScopeState.mk [Frame.mk 0 (TaskCount.priv 2)] []) = true ∧
      (Frame.mk 0 (TaskCount.priv 2)).numTasks.get
        (ScopeState.mk [Frame.mk 0 (TaskCount.priv 2)] []).heap = 2 ∧
      2 + 1 < u32Mod) ∧
    (∃ t s2, ScopedAsync.new (ScopeState.mk [Frame.mk 0 (TaskCount.priv 2)] []) =
        Except.ok (t, s2) ∧
      t.numTasksInScope = none ∧
      Scope.counterValue s2 = some (2 + 1) ∧
      (∃ s3, ScopedAsync.run id t s2 = Except.ok s3 ∧
        Scope.counterValue s3 = some 2) ∧
      (∃ idx t2 s2b, ScopedAsync.promote t s2 = Except.ok (t2, s2b) ∧
        t2.numTasksInScope = some idx ∧
        Scope.counterValue s2b = some (2 + 1) ∧
        ∃ s4 g grest, ScopedAsync.run id t2 s2b = Except.ok s4 ∧
          s4.frames = g :: grest ∧ g.level = (Frame.mk 0 (TaskCount.priv 2)).level + 1 ∧
          g.numTasks = TaskCount.shared idx ∧
          heapGet s4.heap idx = 2)) :=
  ⟨⟨rfl, rfl, rfl, by decide⟩,
    c7_scoped_task_counter _ _ [] 2 rfl rfl rfl (by decide)⟩

/-! ## Worker and the cooperative waits (src/worker.rs, src/future.rs,
src/scope.rs)

A `Worker` owns a deque of tasks and the list of `Coworker` handles
(constructed with itself filtered out).  Tasks are opaque boxed closures;
for the wait model we abstract a task as its effect `σ → σ` on an
abstract world `σ` (the model's tasks do not push further tasks, which
is all the single-worker claim needs: a worker whose deque is already
exhausted).  `send_steal_request` draws a victim index with
`rand::thread_rng().gen_range(0, coworkers.len())`, which panics when
the range is empty, i.e. when the coworker list is empty. -/

structure Coworker where
  id : Nat
deriving DecidableEq, Repr

structure StealRequest where
  thief : Nat
  stealMany : Bool
deriving DecidableEq, Repr

structure Worker (σ : Type) where
  id : Nat
  deque : List (σ → σ)
  coworkers : List Coworker

namespace Worker

/-- `Worker::send_steal_request`: draw `gen_range(0,
coworkers.len())` — a panic when the coworker list is empty (empty
sample range) — and deliver the request to that victim.  The random
draw is modelled by reducing an arbitrary `rand` seed modulo the list
length. -/
def sendStealRequest (w : Worker σ) (rand : Nat) (req : StealRequest) :
    Except Unit (Coworker × StealRequest) :=
  if h : w.coworkers.length = 0 then Except.error ()
  else
    Except.ok (w.coworkers.get
      ⟨rand % w.coworkers.length, Nat.mod_lt _ (Nat.pos_of_ne_zero h)⟩, req)

/-- `Worker::steal_one`: send a single-task steal request. -/
def stealOne (w : Worker σ) (rand : Nat) :
    Except Unit (Coworker × StealRequest) :=
  w.sendStealRequest rand ⟨w.id, false⟩

/-- `Worker::steal_many`: send a bulk steal request. -/
def stealMany (w : Worker σ) (rand : Nat) :
    Except Unit (Coworker × StealRequest) :=
  w.sendStealRequest rand ⟨w.id, true⟩

/-- What `try_handle_steal_request` observes on one checkpoint: no
pending request, a single-task request, or a bulk request. -/
inductive Incoming where
  | idle
  | one
  | many

/-- `Worker::try_handle_steal_request` followed by
`handle_steal_request`: a single-task request steals from the back of
the local deque (no-op response `Tasks::None` when empty), a bulk
request takes the higher-indexed half (`steal_many`). -/
def tryHandleStealRequest (w : Worker σ) (inc : Incoming) : Worker σ :=
  match inc with
  | Incoming.idle => w
  | Incoming.one => { w with deque := w.deque.dropLast }
  | Incoming.many => { w with deque := w.deque.take (w.deque.length / 2) }

/-- A response arriving on the worker's task channel
(`StealResponse::wait`), carrying the stolen task's effect in the
`one` case. -/
inductive TasksResp (σ : Type) where
  | nothing
  | one (t : σ → σ)
  | many
  | exit

end Worker

/-- The local-drain phase shared by `Future::wait`, `LazyFuture::wait`
and `Scope::wait`: `while let Some(task) = worker.pop()`, service one
incoming steal request, run the task, and re-check the blocking
condition (`tryGet`).  The fuel starts at the deque length, which
bounds the loop because the modelled tasks do not push.  Returns the
worker, the world, the unconsumed incoming-request oracle and the value
if the condition was met. -/
def drainLocal (tryGet : σ → Option α) :
    Nat → Worker σ → σ → List Worker.Incoming →
      Worker σ × σ × List Worker.Incoming × Option α
  | 0, w, s, incs => (w, s, incs, none)
  | fuel + 1, w, s, incs =>
      match w.deque with
      | [] => (w, s, incs, none)
      | t :: rest =>
          let w1 := Worker.tryHandleStealRequest { w with deque := rest }
            (incs.headD Worker.Incoming.idle)
          let s1 := t s
          match tryGet s1 with
          | some v => (w1, s1, incs.tail, some v)
          | none => drainLocal tryGet fuel w1 s1 incs.tail

/-- The steal phase shared by the three waits: loop on
`worker.steal_one().wait()`, treating `Tasks::None` as a retry, running
the task of `Tasks::One`, and panicking on any other response
(`_ => panic!()`); after each response re-check the blocking condition.
The oracle list of responses doubles as fuel: `none` means the modelled
responses ran out while the real loop would still be spinning. -/
def stealLoop (tryGet : σ → Option α) :
    List Nat → List (Worker.TasksResp σ) → Worker σ → σ →
      Option (Except Unit (α × σ))
  | _, [], _, _ => none
  | rands, r :: rs, w, s =>
      match w.stealOne (rands.headD 0) with
      | Except.error e => some (Except.error e)
      | Except.ok _ =>
          match r with
          | Worker.TasksResp.nothing =>
              match tryGet s with
              | some v => some (Except.ok (v, s))
              | none => stealLoop tryGet rands.tail rs w s
          | Worker.TasksResp.one t =>
              let s1 := t s
              match tryGet s1 with
              | some v => some (Except.ok (v, s1))
              | none => stealLoop tryGet rands.tail rs w s1
          | Worker.TasksResp.many => some (Except.error ())
          | Worker.TasksResp.exit => some (Except.error ())

/-- The cooperative wait: `Future::wait` (future.rs), `LazyFuture::wait`
(future.rs) and `Scope::wait` (scope.rs) all have this shape — check the
blocking condition, drain the local deque, then steal until the
condition holds.  `tryGet` abstracts the condition (`try_get()` for the
futures, `num_tasks.get() == 0` for the scope). -/
def waitWork (tryGet : σ → Option α) (w : Worker σ) (s : σ)
    (incs : List Worker.Incoming) (resps : List (Worker.TasksResp σ))
    (rands : List Nat) : Option (Except Unit (α × σ)) :=
  match tryGet s with
  | some v => some (Except.ok (v, s))
  | none =>
      match drainLocal tryGet w.deque.length w s incs with
      | (w1, s1, _, some v) =>
          let _ := w1
          some (Except.ok (v, s1))
      | (w1, s1, _, none) => stealLoop tryGet rands resps w1 s1

/-! Claim C10 -/

/-- C10: for a worker whose coworker list is empty (a runtime with a
single worker), `send_steal_request` panics because the random victim
index is drawn from an empty range; hence `steal_one`, `steal_many`,
and every cooperative wait (`Future::wait` / `LazyFuture::wait` /
`Scope::wait`) that exhausts the local deque abort instead of returning
or spinning. -/
theorem c10_empty_coworkers_abort (σ α : Type) (tryGet : σ → Option α)
    (w : Worker σ) (s : σ) (incs : List Worker.Incoming)
    (resps : List (Worker.TasksResp σ)) (rands : List Nat)
    (rand : Nat) (req : StealRequest)
    (hcw : w.coworkers = []) (hdq : w.deque = [])
    (hcond : tryGet s = none) (hresp : resps ≠ []) :
    w.sendStealRequest rand req = Except.error () ∧
    w.stealOne rand = Except.error () ∧
    w.stealMany rand = Except.error () ∧
    waitWork tryGet w s incs resps rands = some (Except.error ()) := by
  obtain ⟨wid, wdq, wcw⟩ := w
  simp only [] at hcw hdq
  subst hcw hdq
  refine ⟨rfl, rfl, rfl, ?_⟩
  cases resps with
  | nil => exact absurd rfl hresp
  | cons r rs =>
      unfold waitWork
      rw [hcond]
      rfl

/-- Witness for C10: a lone worker (empty coworker list, empty deque)
waiting on a never-ready condition over the world `Unit`. -/
theorem c10_empty_coworkers_abort_witness :
    ((Worker.mk 0 [] [] : Worker Unit).coworkers = [] ∧
      (Worker.mk 0 [] [] : Worker Unit).deque = [] ∧
      (fun (_ : Unit) => (none : Option Unit)) () = none ∧
      ([Worker.TasksResp.nothing] : List (Worker.TasksResp Unit)) ≠ []) ∧
    ((Worker.mk 0 [] [] : Worker Unit).sendStealRequest 0 ⟨0, false⟩ =
        Except.error () ∧
      (Worker.mk 0 [] [] : Worker Unit).stealOne 0 = Except.error () ∧
      (Worker.mk 0 [] [] : Worker Unit).stealMany 0 = Except.error () ∧
      waitWork (fun (_ : Unit) => (none : Option Unit)) (Worker.mk 0 [] [])
        () [] [Worker.TasksResp.nothing] [] = some (Except.error ())) :=
  ⟨⟨rfl, rfl, rfl, by intro h; simp at h⟩,
    c10_empty_coworkers_abort Unit Unit _ _ () [] _ [] 0 ⟨0, false⟩
      rfl rfl rfl (by intro h; simp at h)⟩

end RustyTasking
